import Mathlib

/-!
Verification of the TradeMaster trading-journal analytics core.

Shallow embedding of the client-side analytics code:
* `results`            — the position sizing calculator (PositionCalculator.tsx).
* `stats`              — the statistics engine (Dashboard.tsx, `stats` memo).
* `equityCurveData`    — the equity projector (Dashboard.tsx).
* `monthlyChartData`   — the monthly aggregation (Dashboard.tsx).
* `calendarData`       — the calendar aggregator (Dashboard.tsx).
* `analyzeTradeWithAI` — the AI-coach adapter.
* `fetchTradesMapA/B`  — the two copies of the row-to-Trade mapping.

JavaScript numbers are modelled as exact rationals (ℚ); `Math.floor` is `⌊·⌋`
on ℚ and `Math.abs` is `mathAbs`.  Timestamp strings are kept as strings and
parsed positionally, mirroring the zero-padded ISO strings the app stores.
`Array.prototype.sort` (stable since ES2019) is modelled by the stable
`List.insertionSort` with the source's comparator turned into a relation.
-/

/-- The trade direction enum from types.ts. -/
inductive TradeType where
  | LONG
  | SHORT
deriving DecidableEq, Repr

/-- The trade lifecycle enum from types.ts. -/
inductive TradeStatus where
  | OPEN
  | CLOSED
  | PENDING
deriving DecidableEq, Repr

instance : BEq TradeType := ⟨fun a b => decide (a = b)⟩

instance : BEq TradeStatus := ⟨fun a b => decide (a = b)⟩

/-- The Trade record from types.ts. -/
structure Trade where
  id : String
  symbol : String
  type : TradeType
  status : TradeStatus
  entryDate : String
  expiryDate : Option String
  entryPrice : ℚ
  exitPrice : Option ℚ
  quantity : ℚ
  stopLoss : Option ℚ
  takeProfit : Option ℚ
  pnl : Option ℚ
  setup : String
  notes : String
  tags : List String
deriving DecidableEq, Repr

/-- The DailyNote record from types.ts (mood kept as a plain string option). -/
structure DailyNote where
  date : String
  content : String
  mood : Option String
deriving DecidableEq, Repr

/-- The DashboardStats record from types.ts. -/
structure DashboardStats where
  totalTrades : Nat
  winRate : ℚ
  netPnL : ℚ
  avgWin : ℚ
  avgLoss : ℚ
  profitFactor : ℚ
  maxWinStreak : Int
  currentStreak : Int
deriving DecidableEq, Repr

/-- JavaScript `t.pnl || 0`: an absent P&L counts as zero (a stored 0 also
stays 0, since `0 || 0 = 0`). -/
def pnlOrZero (t : Trade) : ℚ := t.pnl.getD 0

/-- Model of JavaScript `Math.abs` on exact rationals. -/
def mathAbs (x : ℚ) : ℚ := if x < 0 then -x else x

theorem mathAbs_eq_abs (x : ℚ) : mathAbs x = |x| := by
  unfold mathAbs
  rcases lt_or_le x 0 with h | h
  · rw [if_pos h, abs_of_neg h]
  · rw [if_neg (not_lt.mpr h), abs_of_nonneg h]

/-- The fixed instrument-to-lot-size table `INDICES_LOT_SIZES` from
PositionCalculator.tsx.  An unknown key yields `undefined` in JS, and
`undefined > 1` is false so the calculator then behaves exactly as for lot
size 1; the default branch therefore returns 1. -/
def lotSizeOf (instrument : String) : ℚ :=
  if instrument = "NIFTY" then 75
  else if instrument = "BANKNIFTY" then 15
  else if instrument = "FINNIFTY" then 25
  else if instrument = "MIDCPNIFTY" then 50
  else if instrument = "SENSEX" then 10
  else 1

/-- The record returned by the `results` memo of PositionCalculator.tsx. -/
structure CalcResults where
  riskAmount : ℚ
  slPoints : ℚ
  qty : ℚ
  lots : ℚ
  totalValue : ℚ
deriving DecidableEq, Repr

/-- The position sizing calculation (`results` memo in PositionCalculator.tsx).
The JS mutable-variable flow (`slPoints`, `qty`, `lots`, `totalValue` start at
0 and are assigned inside the guards) is rendered as nested conditionals. -/
def results (capital riskPercent entryPrice stopLoss : ℚ) (instrument : String) :
    CalcResults :=
  let riskAmount := capital * riskPercent / 100
  if 0 < entryPrice ∧ 0 < stopLoss then
    let slPoints := mathAbs (entryPrice - stopLoss)
    if 0 < slPoints then
      let qty : ℚ := (⌊riskAmount / slPoints⌋ : ℤ)
      let lotSize := lotSizeOf instrument
      if 1 < lotSize then
        let lots : ℚ := (⌊qty / lotSize⌋ : ℤ)
        { riskAmount := riskAmount, slPoints := slPoints,
          qty := lots * lotSize, lots := lots,
          totalValue := lots * lotSize * entryPrice }
      else
        { riskAmount := riskAmount, slPoints := slPoints,
          qty := qty, lots := qty, totalValue := qty * entryPrice }
    else
      { riskAmount := riskAmount, slPoints := slPoints,
        qty := 0, lots := 0, totalValue := 0 }
  else
    { riskAmount := riskAmount, slPoints := 0, qty := 0, lots := 0,
      totalValue := 0 }

theorem lotSizeOf_ge_one (instrument : String) : 1 ≤ lotSizeOf instrument := by
  unfold lotSizeOf
  split_ifs <;> norm_num

theorem lotSizeOf_eq_one_of_not_gt (instrument : String)
    (h : ¬ 1 < lotSizeOf instrument) : lotSizeOf instrument = 1 :=
  le_antisymm (not_lt.mp h) (lotSizeOf_ge_one instrument)

theorem results_riskAmount (capital riskPercent entryPrice stopLoss : ℚ)
    (instrument : String) :
    (results capital riskPercent entryPrice stopLoss instrument).riskAmount
      = capital * riskPercent / 100 := by
  simp only [results]
  split_ifs <;> rfl

/-- C1 (amended): the calculator computes riskAmount = capital × risk% / 100
always; when entry > 0 and stop > 0 it returns slPoints = |entry − stop|, and
when additionally |entry − stop| > 0 it returns the floored raw quantity
adjusted to whole lots (lots = floor(raw / lotSize) and qty = lots × lotSize
when lotSize > 1, lots = qty = raw when lotSize = 1) with
totalValue = qty × entry.  In every other case (entry ≤ 0, stop ≤ 0, or
entry = stop) quantity, lots and total value are all zero.  The original
claim asserted the quantity formula whenever |entry − stop| > 0, which fails
when the guard entry > 0 ∧ stop > 0 does not hold. -/
theorem c1_amended (capital riskPercent entryPrice stopLoss : ℚ)
    (instrument : String) :
    (results capital riskPercent entryPrice stopLoss instrument).riskAmount
      = capital * riskPercent / 100
    ∧ (0 < entryPrice → 0 < stopLoss →
        (results capital riskPercent entryPrice stopLoss instrument).slPoints
          = |entryPrice - stopLoss|)
    ∧ (0 < entryPrice → 0 < stopLoss → 0 < |entryPrice - stopLoss| →
        ((1 < lotSizeOf instrument →
          (results capital riskPercent entryPrice stopLoss instrument).lots
            = ((⌊(((⌊capital * riskPercent / 100 / |entryPrice - stopLoss|⌋ : ℤ) : ℚ))
                / lotSizeOf instrument⌋ : ℤ) : ℚ)
          ∧ (results capital riskPercent entryPrice stopLoss instrument).qty
            = (results capital riskPercent entryPrice stopLoss instrument).lots
                * lotSizeOf instrument)
        ∧ (lotSizeOf instrument = 1 →
          (results capital riskPercent entryPrice stopLoss instrument).qty
            = ((⌊capital * riskPercent / 100 / |entryPrice - stopLoss|⌋ : ℤ) : ℚ)
          ∧ (results capital riskPercent entryPrice stopLoss instrument).lots
            = (results capital riskPercent entryPrice stopLoss instrument).qty)
        ∧ (results capital riskPercent entryPrice stopLoss instrument).totalValue
            = (results capital riskPercent entryPrice stopLoss instrument).qty
                * entryPrice))
    ∧ ((¬ (0 < entryPrice ∧ 0 < stopLoss)) ∨ entryPrice = stopLoss →
        (results capital riskPercent entryPrice stopLoss instrument).qty = 0
        ∧ (results capital riskPercent entryPrice stopLoss instrument).lots = 0
        ∧ (results capital riskPercent entryPrice stopLoss instrument).totalValue
            = 0) := by
  refine ⟨results_riskAmount _ _ _ _ _, ?_, ?_, ?_⟩
  · intro he hs
    simp only [results]
    rw [if_pos ⟨he, hs⟩, mathAbs_eq_abs]
    by_cases habs : 0 < |entryPrice - stopLoss|
    · rw [if_pos habs]
      split_ifs <;> rfl
    · rw [if_neg habs]
  · intro he hs habs
    simp only [results]
    rw [if_pos ⟨he, hs⟩, mathAbs_eq_abs, if_pos habs]
    refine ⟨fun hlot => ?_, fun hlot => ?_, ?_⟩
    · rw [if_pos hlot]
      exact ⟨rfl, rfl⟩
    · rw [if_neg (by rw [hlot]; exact lt_irrefl 1)]
      exact ⟨rfl, rfl⟩
    · split_ifs <;> rfl
  · intro hz
    simp only [results]
    rcases hz with hz | hz
    · rw [if_neg hz]
      exact ⟨rfl, rfl, rfl⟩
    · by_cases h1 : 0 < entryPrice ∧ 0 < stopLoss
      · rw [if_pos h1, mathAbs_eq_abs, hz, sub_self, abs_zero,
          if_neg (lt_irrefl 0)]
        exact ⟨rfl, rfl, rfl⟩
      · rw [if_neg h1]
        exact ⟨rfl, rfl, rfl⟩

/-- C1 counterexample: with capital 100000, risk 2 %, entry 5, stop 0 and an
equity instrument, the claim's stopDistance |entry − stop| = 5 is positive and
entry ≠ 0, yet the code returns quantity 0 instead of
floor(riskAmount / stopDistance) = 400, because the code additionally guards
on entry > 0 ∧ stop > 0. -/
theorem c1_claim_counterexample :
    0 < |(5:ℚ) - 0|
    ∧ (5:ℚ) ≠ 0
    ∧ (results 100000 2 5 0 "EQUITY").qty = 0
    ∧ ((⌊(results 100000 2 5 0 "EQUITY").riskAmount / |(5:ℚ) - 0|⌋ : ℤ) : ℚ)
        = 400 := by
  refine ⟨by norm_num, by norm_num, ?_, ?_⟩
  · norm_num [results]
  · rw [results_riskAmount]
    norm_num

/-- C1 witness: at capital 100000, risk 2 %, entry 20000, stop 19900 the
guard hypotheses hold and the amended theorem applies. -/
theorem c1_amended_witness :
    0 < (20000:ℚ) ∧ 0 < (19900:ℚ)
    ∧ (results 100000 2 20000 19900 "EQUITY").slPoints
        = |(20000:ℚ) - 19900| :=
  ⟨by norm_num, by norm_num,
    (c1_amended 100000 2 20000 19900 "EQUITY").2.1 (by norm_num) (by norm_num)⟩

/-- C7 (amended): whenever capital × risk% is non-negative (so the risk budget
riskAmount is non-negative), the returned quantity is a non-negative whole
multiple of the instrument's lot size and respects the risk budget
qty × |entry − stop| ≤ riskAmount; scenario C (capital 100000, risk 2 %,
entry 20000, stop 19900, NIFTY lot 75) yields riskAmount 2000, stop distance
100, raw quantity 20, lots 0 and quantity 0.  The original claim asserted
this for every input, which fails when capital × risk% < 0: Math.floor then
produces a negative quantity. -/
theorem c7_amended (capital riskPercent entryPrice stopLoss : ℚ)
    (instrument : String) (h : 0 ≤ capital * riskPercent) :
    (∃ k : ℕ, (results capital riskPercent entryPrice stopLoss instrument).qty
        = (k : ℚ) * lotSizeOf instrument)
    ∧ (results capital riskPercent entryPrice stopLoss instrument).qty
        * |entryPrice - stopLoss|
        ≤ (results capital riskPercent entryPrice stopLoss instrument).riskAmount
    ∧ ((results 100000 2 20000 19900 "NIFTY").riskAmount = 2000
      ∧ (results 100000 2 20000 19900 "NIFTY").slPoints = 100
      ∧ (⌊(results 100000 2 20000 19900 "NIFTY").riskAmount
            / (results 100000 2 20000 19900 "NIFTY").slPoints⌋ : ℤ) = 20
      ∧ (results 100000 2 20000 19900 "NIFTY").lots = 0
      ∧ (results 100000 2 20000 19900 "NIFTY").qty = 0) := by
  have hR : 0 ≤ capital * riskPercent / 100 := div_nonneg h (by norm_num)
  have key : (∃ k : ℕ,
        (results capital riskPercent entryPrice stopLoss instrument).qty
          = (k : ℚ) * lotSizeOf instrument)
      ∧ (results capital riskPercent entryPrice stopLoss instrument).qty
          * |entryPrice - stopLoss|
          ≤ (results capital riskPercent entryPrice stopLoss
              instrument).riskAmount := by
    simp only [results, mathAbs_eq_abs]
    split_ifs with h1 h2 h3 <;> dsimp only
    · set L := lotSizeOf instrument with hL
      set d := |entryPrice - stopLoss| with hd
      set R := capital * riskPercent / 100 with hRdef
      have hL0 : (0:ℚ) < L := lt_trans one_pos h3
      have hq0 : (0:ℚ) ≤ ((⌊R / d⌋ : ℤ) : ℚ) := by
        have : (0:ℤ) ≤ ⌊R / d⌋ := Int.floor_nonneg.mpr (div_nonneg hR h2.le)
        exact_mod_cast this
      have hlots : (0:ℤ) ≤ ⌊((⌊R / d⌋ : ℤ) : ℚ) / L⌋ :=
        Int.floor_nonneg.mpr (div_nonneg hq0 hL0.le)
      constructor
      · refine ⟨(⌊((⌊R / d⌋ : ℤ) : ℚ) / L⌋).toNat, ?_⟩
        have hcast : (((⌊((⌊R / d⌋ : ℤ) : ℚ) / L⌋).toNat : ℕ) : ℚ)
            = ((⌊((⌊R / d⌋ : ℤ) : ℚ) / L⌋ : ℤ) : ℚ) := by
          exact_mod_cast congrArg Int.cast (Int.toNat_of_nonneg hlots)
        simp only [hcast]
      · have step1 : ((⌊((⌊R / d⌋ : ℤ) : ℚ) / L⌋ : ℤ) : ℚ) * L
            ≤ ((⌊R / d⌋ : ℤ) : ℚ) := by
          have hfl := Int.floor_le (((⌊R / d⌋ : ℤ) : ℚ) / L)
          calc ((⌊((⌊R / d⌋ : ℤ) : ℚ) / L⌋ : ℤ) : ℚ) * L
              ≤ (((⌊R / d⌋ : ℤ) : ℚ) / L) * L :=
                mul_le_mul_of_nonneg_right hfl hL0.le
            _ = ((⌊R / d⌋ : ℤ) : ℚ) := div_mul_cancel₀ _ (ne_of_gt hL0)
        have step2 : ((⌊R / d⌋ : ℤ) : ℚ) * d ≤ R := by
          calc ((⌊R / d⌋ : ℤ) : ℚ) * d ≤ (R / d) * d :=
                mul_le_mul_of_nonneg_right (Int.floor_le (R / d)) h2.le
            _ = R := div_mul_cancel₀ _ (ne_of_gt h2)
        calc ((⌊((⌊R / d⌋ : ℤ) : ℚ) / L⌋ : ℤ) : ℚ) * L * d
            ≤ ((⌊R / d⌋ : ℤ) : ℚ) * d :=
              mul_le_mul_of_nonneg_right step1 (abs_nonneg _)
          _ ≤ R := step2
    · set d := |entryPrice - stopLoss| with hd
      set R := capital * riskPercent / 100 with hRdef
      have hone : lotSizeOf instrument = 1 := lotSizeOf_eq_one_of_not_gt _ h3
      have hq0 : (0:ℚ) ≤ ((⌊R / d⌋ : ℤ) : ℚ) := by
        have : (0:ℤ) ≤ ⌊R / d⌋ := Int.floor_nonneg.mpr (div_nonneg hR h2.le)
        exact_mod_cast this
      constructor
      · refine ⟨(⌊R / d⌋).toNat, ?_⟩
        rw [hone, mul_one]
        have : (((⌊R / d⌋).toNat : ℤ) : ℚ) = ((⌊R / d⌋ : ℤ) : ℚ) := by
          exact_mod_cast congrArg Int.cast
            (Int.toNat_of_nonneg (Int.floor_nonneg.mpr (div_nonneg hR h2.le)))
        exact_mod_cast this.symm
      · calc ((⌊R / d⌋ : ℤ) : ℚ) * d ≤ (R / d) * d :=
              mul_le_mul_of_nonneg_right (Int.floor_le (R / d)) h2.le
          _ = R := div_mul_cancel₀ _ (ne_of_gt h2)
    · exact ⟨⟨0, by norm_num⟩, by rw [zero_mul]; exact hR⟩
    · exact ⟨⟨0, by norm_num⟩, by rw [zero_mul]; exact hR⟩
  exact ⟨key.1, key.2, by norm_num [results, lotSizeOf, mathAbs]⟩

/-- C7 counterexample: with capital −100000 and risk 2 % the risk budget is
−2000, and at entry 20000, stop 19900 on NIFTY the code returns quantity
−75, which is not a non-negative multiple of the lot size; the claim's
universal "for every input" is therefore false. -/
theorem c7_claim_counterexample :
    (results (-100000) 2 20000 19900 "NIFTY").qty = -75
    ∧ (results (-100000) 2 20000 19900 "NIFTY").qty < 0 := by
  norm_num [results, lotSizeOf, mathAbs]

/-- C7 witness: at capital 100000, risk 2 % the budget hypothesis holds and
the amended theorem applies. -/
theorem c7_amended_witness :
    0 ≤ (100000:ℚ) * 2
    ∧ (∃ k : ℕ, (results 100000 2 20000 19900 "NIFTY").qty
        = (k : ℚ) * lotSizeOf "NIFTY") :=
  ⟨by norm_num, (c7_amended 100000 2 20000 19900 "NIFTY" (by norm_num)).1⟩

/-- Numeric value of a decimal digit character. -/
def charDigit (c : Char) : Nat := c.toNat - 48

/-- Decimal value of a digit run, as produced by JavaScript `parseInt` on the
all-digit substrings the app feeds it. -/
def natOfDigits (l : List Char) : Nat :=
  l.foldl (fun a c => a * 10 + charDigit c) 0

/-- Year component of a zero-padded ISO timestamp string (positions 0-3). -/
def yearOf (s : String) : Nat := natOfDigits (s.data.take 4)

/-- Month component (positions 5-6) of a zero-padded ISO timestamp string. -/
def monthOf (s : String) : Nat := natOfDigits ((s.data.drop 5).take 2)

/-- Day component (positions 8-9). -/
def dayOf (s : String) : Nat := natOfDigits ((s.data.drop 8).take 2)

/-- Hour component (positions 11-12), 0 when absent. -/
def hourOf (s : String) : Nat := natOfDigits ((s.data.drop 11).take 2)

/-- Minute component (positions 14-15), 0 when absent. -/
def minuteOf (s : String) : Nat := natOfDigits ((s.data.drop 14).take 2)

/-- Order-preserving model of `new Date(s).getTime()` on the zero-padded ISO
timestamp strings the app stores (`YYYY-MM-DD` or `YYYY-MM-DDTHH:MM`): the
code only ever compares these values, so any strictly monotone encoding of
(year, month, day, hour, minute) is adequate. -/
def entryTime (s : String) : Nat :=
  (((yearOf s * 12 + monthOf s) * 31 + dayOf s) * 24 + hourOf s) * 60
    + minuteOf s

/-- The comparator of the `stats` memo: ascending entry timestamp, ties broken
by `id.localeCompare` (lexicographic order on the UUID strings). -/
def statsCmpLE (a b : Trade) : Prop :=
  entryTime a.entryDate < entryTime b.entryDate
  ∨ (entryTime a.entryDate = entryTime b.entryDate ∧ a.id ≤ b.id)

instance : DecidableRel statsCmpLE := fun a b => by
  unfold statsCmpLE
  infer_instance

/-- The closed-with-P&L subset sorted by the stats comparator
(`trades.filter(...).sort(...)` in the `stats` memo; `Array.prototype.sort`
is stable and is modelled by the stable insertion sort). -/
def closedTrades (trades : List Trade) : List Trade :=
  List.insertionSort statsCmpLE
    (trades.filter fun t => t.status == TradeStatus.CLOSED && t.pnl.isSome)

/-- The three mutable streak variables of the `stats` memo. -/
structure StreakState where
  counter : Int
  maxWinStreak : Int
  currentStreak : Int
deriving DecidableEq, Repr

/-- One iteration of the streak loop in the `stats` memo. -/
def streakStep (s : StreakState) (t : Trade) : StreakState :=
  if 0 < pnlOrZero t then
    { counter := s.counter + 1,
      maxWinStreak := max s.maxWinStreak (s.counter + 1),
      currentStreak := if 0 ≤ s.currentStreak then s.currentStreak + 1 else 1 }
  else
    { counter := 0,
      maxWinStreak := s.maxWinStreak,
      currentStreak :=
        if s.currentStreak ≤ 0 then s.currentStreak - 1 else -1 }

/-- JavaScript `list.reduce((acc, t) => acc + (t.pnl || 0), 0)`. -/
def sumPnl (l : List Trade) : ℚ :=
  l.foldl (fun acc t => acc + pnlOrZero t) 0

/-- The statistics engine: the `stats` memo of Dashboard.tsx. -/
def stats (trades : List Trade) : DashboardStats :=
  let closed := closedTrades trades
  let totalTrades := closed.length
  let wins := closed.filter fun t => decide (0 < pnlOrZero t)
  let losses := closed.filter fun t => decide (pnlOrZero t ≤ 0)
  let totalWinPnl := sumPnl wins
  let totalLossPnl := mathAbs (sumPnl losses)
  let netPnL := totalWinPnl - totalLossPnl
  let winRate : ℚ :=
    if 0 < totalTrades then ((wins.length : ℚ) / (totalTrades : ℚ)) * 100
    else 0
  let avgWin : ℚ :=
    if 0 < wins.length then totalWinPnl / (wins.length : ℚ) else 0
  let avgLoss : ℚ :=
    if 0 < losses.length then totalLossPnl / (losses.length : ℚ) else 0
  let profitFactor : ℚ :=
    if 0 < totalLossPnl then totalWinPnl / totalLossPnl
    else if 0 < totalWinPnl then 999 else 0
  let final := closed.foldl streakStep ⟨0, 0, 0⟩
  { totalTrades := totalTrades, winRate := winRate, netPnL := netPnL,
    avgWin := avgWin, avgLoss := avgLoss, profitFactor := profitFactor,
    maxWinStreak := final.maxWinStreak,
    currentStreak := final.currentStreak }

theorem sumPnl_go (l : List Trade) :
    ∀ a : ℚ, l.foldl (fun acc t => acc + pnlOrZero t) a
      = a + (l.map pnlOrZero).sum := by
  induction l with
  | nil => intro a; simp
  | cons hd tl ih =>
      intro a
      simp only [List.foldl_cons, List.map_cons, List.sum_cons, ih]
      ring

theorem sumPnl_eq (l : List Trade) : sumPnl l = (l.map pnlOrZero).sum := by
  unfold sumPnl
  rw [sumPnl_go]
  ring

theorem sum_nonpos_of_mem {l : List ℚ} (h : ∀ x ∈ l, x ≤ 0) : l.sum ≤ 0 := by
  induction l with
  | nil => simp
  | cons hd tl ih =>
      simp only [List.sum_cons]
      have h1 := h hd (List.mem_cons_self hd tl)
      have h2 := ih fun x hx => h x (List.mem_cons_of_mem hd hx)
      linarith

theorem sum_filter_split (l : List Trade) :
    ((l.filter fun t => decide (0 < pnlOrZero t)).map pnlOrZero).sum
      + ((l.filter fun t => decide (pnlOrZero t ≤ 0)).map pnlOrZero).sum
      = (l.map pnlOrZero).sum := by
  induction l with
  | nil => simp
  | cons hd tl ih =>
      by_cases h : 0 < pnlOrZero hd
      · simp only [List.filter_cons, decide_eq_true_eq, if_pos h,
          if_neg (not_le.mpr h), List.map_cons, List.sum_cons]
        rw [add_assoc] at *
        rw [ih]
      · simp only [List.filter_cons, decide_eq_true_eq, if_neg h,
          if_pos (not_lt.mp h), List.map_cons, List.sum_cons]
        rw [add_left_comm, ih]

theorem stats_netPnL (trades : List Trade) :
    (stats trades).netPnL
      = ((trades.filter fun t =>
          t.status == TradeStatus.CLOSED && t.pnl.isSome).map pnlOrZero).sum := by
  have hperm : (closedTrades trades).Perm
      (trades.filter fun t => t.status == TradeStatus.CLOSED && t.pnl.isSome) :=
    List.perm_insertionSort _ _
  have hL : ((((closedTrades trades).filter
      fun t => decide (pnlOrZero t ≤ 0)).map pnlOrZero)).sum ≤ 0 := by
    apply sum_nonpos_of_mem
    intro x hx
    rcases List.mem_map.mp hx with ⟨t, ht, rfl⟩
    exact of_decide_eq_true (List.mem_filter.mp ht).2
  show sumPnl _ - mathAbs (sumPnl _) = _
  rw [sumPnl_eq, sumPnl_eq, mathAbs_eq_abs, abs_of_nonpos hL, sub_neg_eq_add,
    sum_filter_split]
  exact (hperm.map pnlOrZero).sum_eq

/-- C3: the net P&L equals the sum of P&L over exactly the closed-with-P&L
subset of the input, and is invariant under any permutation of the input
collection. -/
theorem c3_netPnL_sum_perm_invariant (trades : List Trade) :
    (stats trades).netPnL
      = ((trades.filter fun t =>
          t.status == TradeStatus.CLOSED && t.pnl.isSome).map pnlOrZero).sum
    ∧ ∀ trades' : List Trade, trades.Perm trades' →
        (stats trades).netPnL = (stats trades').netPnL := by
  refine ⟨stats_netPnL trades, fun trades' hp => ?_⟩
  rw [stats_netPnL, stats_netPnL]
  exact ((hp.filter _).map pnlOrZero).sum_eq

/-- Scenario trade: a closed loss of 50 on 2024-01-01. -/
def tradeB1 : Trade :=
  { id := "b1", symbol := "NIFTY", type := TradeType.LONG,
    status := TradeStatus.CLOSED, entryDate := "2024-01-01T10:00",
    expiryDate := none, entryPrice := 100, exitPrice := none, quantity := 1,
    stopLoss := none, takeProfit := none, pnl := some (-50), setup := "",
    notes := "", tags := [] }

/-- Scenario trade: a closed win of 100 on 2024-01-02. -/
def tradeB2 : Trade :=
  { tradeB1 with id := "b2", entryDate := "2024-01-02T10:00", pnl := some 100 }

/-- Scenario trade: a closed loss of 30 on 2024-01-03. -/
def tradeB3 : Trade :=
  { tradeB1 with id := "b3", entryDate := "2024-01-03T10:00", pnl := some (-30) }

/-- C3 witness: the permutation hypothesis discharged on a concrete swap. -/
theorem c3_netPnL_sum_perm_invariant_witness :
    ([tradeB1, tradeB2] : List Trade).Perm [tradeB2, tradeB1]
    ∧ (stats [tradeB1, tradeB2]).netPnL = (stats [tradeB2, tradeB1]).netPnL :=
  ⟨List.Perm.swap tradeB2 tradeB1 [],
    (c3_netPnL_sum_perm_invariant [tradeB1, tradeB2]).2 [tradeB2, tradeB1]
      (List.Perm.swap tradeB2 tradeB1 [])⟩

/-- The loop invariant of the streak scan: the running win counter is
non-negative and bounded by the running maximum, agrees with the signed
current streak while that streak is non-negative, and is zero while the
current streak is negative. -/
def StreakInv (s : StreakState) : Prop :=
  0 ≤ s.counter
  ∧ (0 ≤ s.currentStreak → s.currentStreak = s.counter)
  ∧ (s.currentStreak < 0 → s.counter = 0)
  ∧ s.counter ≤ s.maxWinStreak

theorem streakStep_inv (s : StreakState) (t : Trade) (h : StreakInv s) :
    StreakInv (streakStep s t) := by
  obtain ⟨h0, hpos, hneg, hmax⟩ := h
  unfold streakStep StreakInv
  by_cases hw : 0 < pnlOrZero t
  · rw [if_pos hw]
    dsimp only
    split_ifs with hc
    · have := hpos hc
      exact ⟨by omega, by omega, by omega, le_max_right _ _⟩
    · have := hneg (by omega)
      exact ⟨by omega, by omega, by omega, le_max_right _ _⟩
  · rw [if_neg hw]
    dsimp only
    split_ifs with hc
    · exact ⟨le_refl 0, by omega, fun _ => rfl, by omega⟩
    · exact ⟨le_refl 0, by omega, fun _ => rfl, by omega⟩

theorem streakFold_inv (l : List Trade) :
    ∀ s : StreakState, StreakInv s → StreakInv (l.foldl streakStep s) := by
  induction l with
  | nil => intro s h; exact h
  | cons hd tl ih =>
      intro s h
      exact ih _ (streakStep_inv s hd h)

/-- C5: after the streak scan, maxWinStreak ≥ currentStreak whenever
currentStreak > 0; and on the scenario-B trades (closed P&Ls −50, 100, −30
in chronological order) the scan ends with currentStreak = −1 and
maxWinStreak = 1. -/
theorem c5_streak_invariant (trades : List Trade) :
    (0 < (stats trades).currentStreak →
      (stats trades).currentStreak ≤ (stats trades).maxWinStreak)
    ∧ (stats [tradeB1, tradeB2, tradeB3]).currentStreak = -1
    ∧ (stats [tradeB1, tradeB2, tradeB3]).maxWinStreak = 1 := by
  refine ⟨?_, by decide, by decide⟩
  intro hpos
  have hinv : StreakInv ((closedTrades trades).foldl streakStep ⟨0, 0, 0⟩) :=
    streakFold_inv (closedTrades trades) ⟨0, 0, 0⟩
      ⟨le_refl 0, fun _ => rfl, fun habs => absurd habs (by decide), le_refl 0⟩
  obtain ⟨h0, hpos_eq, hneg_eq, hmax⟩ := hinv
  have hcur : (stats trades).currentStreak
      = ((closedTrades trades).foldl streakStep ⟨0, 0, 0⟩).currentStreak := rfl
  have hmaxw : (stats trades).maxWinStreak
      = ((closedTrades trades).foldl streakStep ⟨0, 0, 0⟩).maxWinStreak := rfl
  rw [hcur] at hpos ⊢
  rw [hmaxw]
  have := hpos_eq (le_of_lt hpos)
  omega

/-- C5 witness: a single winning closed trade gives a positive current
streak, discharging the invariant's hypothesis. -/
theorem c5_streak_invariant_witness :
    0 < (stats [tradeB2]).currentStreak
    ∧ (stats [tradeB2]).currentStreak ≤ (stats [tradeB2]).maxWinStreak :=
  ⟨by decide, (c5_streak_invariant [tradeB2]).1 (by decide)⟩

/-- Gross winning amount: sum of P&L over the wins partition of the sorted
closed subset (the `totalWinPnl` local of the `stats` memo). -/
def totalWinAmount (trades : List Trade) : ℚ :=
  sumPnl ((closedTrades trades).filter fun t => decide (0 < pnlOrZero t))

/-- Gross losing magnitude: absolute value of the summed non-positive P&L
(the `totalLossPnl` local of the `stats` memo). -/
def totalLossAmount (trades : List Trade) : ℚ :=
  mathAbs (sumPnl ((closedTrades trades).filter fun t =>
    decide (pnlOrZero t ≤ 0)))

/-- Model of `Number(x.toFixed(2))` from TradeForm.tsx: rounding to two
decimal places (ties rounded up, matching JS for the app's values). -/
def toFixed2 (x : ℚ) : ℚ := ((round (x * 100) : ℤ) : ℚ) / 100

/-- The auto-computed realized P&L of `handleChange` in TradeForm.tsx:
`diff × qty` for long trades and `−diff × qty` for short ones, rounded to two
decimals. -/
def calculatedPnl (ty : TradeType) (entry exit qty : ℚ) : ℚ :=
  let diff := exit - entry
  toFixed2 (if ty == TradeType.LONG then diff * qty else -diff * qty)

/-- Scenario-A trade: a closed long, entry 100, exit 120, quantity 10. -/
def tradeA : Trade :=
  { id := "a1", symbol := "NIFTY", type := TradeType.LONG,
    status := TradeStatus.CLOSED, entryDate := "2024-01-05T10:00",
    expiryDate := none, entryPrice := 100, exitPrice := some 120,
    quantity := 10, stopLoss := none, takeProfit := none, pnl := some 200,
    setup := "", notes := "", tags := [] }

/-- C4: the profit factor is totalWin/totalLoss when totalLoss > 0, the
sentinel 999 when totalLoss = 0 and totalWin > 0, and 0 when both are 0;
and on scenario A (single closed long, entry 100, exit 120, qty 10) the
computed P&L is 200 and the stats are netPnL 200, winRate 100, avgLoss 0,
profitFactor 999. -/
theorem c4_profit_factor (trades : List Trade) :
    (0 < totalLossAmount trades →
      (stats trades).profitFactor
        = totalWinAmount trades / totalLossAmount trades)
    ∧ (totalLossAmount trades = 0 → 0 < totalWinAmount trades →
      (stats trades).profitFactor = 999)
    ∧ (totalLossAmount trades = 0 → totalWinAmount trades = 0 →
      (stats trades).profitFactor = 0)
    ∧ calculatedPnl TradeType.LONG 100 120 10 = 200
    ∧ (stats [tradeA]).netPnL = 200
    ∧ (stats [tradeA]).winRate = 100
    ∧ (stats [tradeA]).avgLoss = 0
    ∧ (stats [tradeA]).profitFactor = 999 := by
  have hK : (stats trades).profitFactor
      = if 0 < totalLossAmount trades
        then totalWinAmount trades / totalLossAmount trades
        else if 0 < totalWinAmount trades then 999 else 0 := rfl
  refine ⟨?_, ?_, ?_, ?_, ?_, ?_, ?_, ?_⟩
  · intro h
    rw [hK, if_pos h]
  · intro h0 hw
    rw [hK, if_neg (by rw [h0]; exact lt_irrefl 0), if_pos hw]
  · intro h0 hw0
    rw [hK, if_neg (by rw [h0]; exact lt_irrefl 0),
      if_neg (by rw [hw0]; exact lt_irrefl 0)]
  · norm_num [calculatedPnl, toFixed2, round_eq]
  · norm_num [stats, closedTrades, List.insertionSort, List.orderedInsert,
      sumPnl, pnlOrZero, mathAbs, tradeA]
  · norm_num [stats, closedTrades, List.insertionSort, List.orderedInsert,
      sumPnl, pnlOrZero, mathAbs, tradeA]
  · norm_num [stats, closedTrades, List.insertionSort, List.orderedInsert,
      sumPnl, pnlOrZero, mathAbs, tradeA]
  · norm_num [stats, closedTrades, List.insertionSort, List.orderedInsert,
      sumPnl, pnlOrZero, mathAbs, tradeA]

/-- C4 witness: a single closed loss makes totalLossAmount positive,
discharging the first hypothesis. -/
theorem c4_profit_factor_witness :
    0 < totalLossAmount [tradeB1]
    ∧ (stats [tradeB1]).profitFactor
        = totalWinAmount [tradeB1] / totalLossAmount [tradeB1] := by
  have h : 0 < totalLossAmount [tradeB1] := by
    norm_num [totalLossAmount, closedTrades, List.insertionSort,
      List.orderedInsert, sumPnl, pnlOrZero, mathAbs, tradeB1]
  exact ⟨h, (c4_profit_factor [tradeB1]).1 h⟩

/-- JavaScript `String(n).padStart(2, '0')`. -/
def pad2 (n : Nat) : String :=
  let s := toString n
  if s.length < 2 then "0" ++ s else s

/-- Gregorian leap-year rule, as implemented by the JS Date object. -/
def isLeapYear (y : Nat) : Bool :=
  (y % 4 == 0 && y % 100 != 0) || y % 400 == 0

/-- Model of `new Date(year, month + 1, 0).getDate()` (month is 0-based):
the number of days in the given month of the Gregorian calendar.  The
wildcard branch is unreachable because `getMonth()` is always in [0, 11]. -/
def daysInMonth (year month : Nat) : Nat :=
  match month with
  | 0 => 31
  | 1 => if isLeapYear year then 29 else 28
  | 2 => 31
  | 3 => 30
  | 4 => 31
  | 5 => 30
  | 6 => 31
  | 7 => 31
  | 8 => 30
  | 9 => 31
  | 10 => 30
  | 11 => 31
  | _ => 31

/-- Month-offset table of Sakamoto's day-of-week algorithm. -/
def sakamoto : List Nat := [0, 3, 2, 5, 0, 3, 5, 1, 4, 6, 2, 4]

/-- Model of `new Date(y, m - 1, d).getDay()` (here m is 1-based):
0 = Sunday.  Computed with Sakamoto's formula, which agrees with the JS Date
object on the Gregorian calendar. -/
def dayOfWeek (y m d : Nat) : Nat :=
  let y' := if m < 3 then y - 1 else y
  (y' + y' / 4 - y' / 100 + y' / 400 + sakamoto.getD (m - 1) 0 + d) % 7

/-- Model of `toLocaleString('default', { month: 'long' })` for the 0-based
month index, in the app's default English locale. -/
def monthLongName (m : Nat) : String :=
  match m with
  | 0 => "January"
  | 1 => "February"
  | 2 => "March"
  | 3 => "April"
  | 4 => "May"
  | 5 => "June"
  | 6 => "July"
  | 7 => "August"
  | 8 => "September"
  | 9 => "October"
  | 10 => "November"
  | 11 => "December"
  | _ => ""

/-- The per-day cell pushed by the calendar loop (`{ day, dateStr, pnl,
hasTrades, hasNote }`); the padding cells `{ day: null }` are modelled as
`none` in the days list. -/
structure DayCell where
  day : Nat
  dateStr : String
  pnl : ℚ
  hasTrades : Bool
  hasNote : Bool
deriving DecidableEq, Repr

/-- The record returned by the `calendarData` memo. -/
structure CalendarData where
  year : Nat
  month : Nat
  days : List (Option DayCell)
  monthName : String
deriving DecidableEq, Repr

/-- The template string `year + '-' + pad(month + 1) + '-' + pad(i)` of the
calendar loop (month is 0-based, i is the 1-based day). -/
def mkDateStr (year month i : Nat) : String :=
  toString year ++ "-" ++ pad2 (month + 1) ++ "-" ++ pad2 i

/-- `trades.filter(t => t.entryDate.startsWith(dateStr) && t.status ===
TradeStatus.CLOSED)`; `startsWith` is the prefix test on the underlying
character lists. -/
def dayTradesOf (trades : List Trade) (dateStr : String) : List Trade :=
  trades.filter fun t =>
    dateStr.data.isPrefixOf t.entryDate.data && t.status == TradeStatus.CLOSED

/-- Construction of one calendar day cell. -/
def mkDayCell (trades : List Trade) (notes : List DailyNote)
    (year month i : Nat) : DayCell :=
  let dateStr := mkDateStr year month i
  let dayTrades := dayTradesOf trades dateStr
  { day := i, dateStr := dateStr,
    pnl := sumPnl dayTrades,
    hasTrades := decide (0 < dayTrades.length),
    hasNote := (notes.find? fun n => n.date == dateStr).isSome }

/-- The calendar aggregator (`calendarData` memo of Dashboard.tsx): leading
blank cells for the weekdays before the 1st, then one cell per day of the
month. -/
def calendarData (trades : List Trade) (notes : List DailyNote)
    (year month : Nat) : CalendarData :=
  { year := year, month := month,
    days :=
      (List.range (dayOfWeek year (month + 1) 1)).map
        (fun _ => (none : Option DayCell))
      ++ (List.range (daysInMonth year month)).map
        (fun k => some (mkDayCell trades notes year month (k + 1))),
    monthName := monthLongName month }

theorem isPrefixOf_exists_append :
    ∀ (a s : List Char), a.isPrefixOf s = true ↔ ∃ u, s = a ++ u := by
  intro a
  induction a with
  | nil =>
      intro s
      simp [List.isPrefixOf]
  | cons c cs ih =>
      intro s
      cases s with
      | nil => simp [List.isPrefixOf]
      | cons d ds =>
          simp only [List.isPrefixOf, Bool.and_eq_true, beq_iff_eq, ih,
            List.cons_append, List.cons.injEq]
          constructor
          · rintro ⟨rfl, u, rfl⟩
            exact ⟨u, rfl, rfl⟩
          · rintro ⟨u, rfl, rfl⟩
            exact ⟨rfl, u, rfl⟩

theorem eq_of_both_isPrefixOf :
    ∀ (s a b : List Char), a.isPrefixOf s = true → b.isPrefixOf s = true →
      a.length = b.length → a = b := by
  intro s
  induction s with
  | nil =>
      intro a b ha hb _
      cases a with
      | nil =>
          cases b with
          | nil => rfl
          | cons y ys => simp [List.isPrefixOf] at hb
      | cons x xs => simp [List.isPrefixOf] at ha
  | cons z zs ih =>
      intro a b ha hb hlen
      cases a with
      | nil =>
          cases b with
          | nil => rfl
          | cons y ys => simp at hlen
      | cons x xs =>
          cases b with
          | nil => simp at hlen
          | cons y ys =>
              simp only [List.isPrefixOf, Bool.and_eq_true, beq_iff_eq] at ha hb
              simp only [List.length_cons, Nat.succ.injEq] at hlen
              rw [ha.1, hb.1, ih xs ys ha.2 hb.2 hlen]

set_option maxRecDepth 8000 in
theorem pad2_length_eq_two : ∀ n < 100, (pad2 n).length = 2 := by decide

set_option maxRecDepth 80000 in
theorem pad2_data_inj : ∀ i < 100, ∀ j < 100,
    (pad2 i).data = (pad2 j).data → i = j := by decide

theorem daysInMonth_le_31 (year : Nat) : ∀ m < 12, daysInMonth year m ≤ 31 := by
  intro m hm
  interval_cases m <;> simp [daysInMonth] <;> split <;> omega

theorem mkDateStr_data (y m i : Nat) :
    (mkDateStr y m i).data
      = (toString y ++ "-" ++ pad2 (m + 1) ++ "-").data ++ (pad2 i).data := by
  simp [mkDateStr, String.data_append, List.append_assoc]

theorem mkDateStr_day_inj {y m i j : Nat} (hi : i < 100) (hj : j < 100)
    {s : List Char} (hpi : (mkDateStr y m i).data.isPrefixOf s = true)
    (hpj : (mkDateStr y m j).data.isPrefixOf s = true) : i = j := by
  have hlen : (mkDateStr y m i).data.length = (mkDateStr y m j).data.length := by
    rw [mkDateStr_data, mkDateStr_data, List.length_append, List.length_append]
    have h1 : (pad2 i).data.length = 2 := pad2_length_eq_two i hi
    have h2 : (pad2 j).data.length = 2 := pad2_length_eq_two j hj
    omega
  have heq := eq_of_both_isPrefixOf s _ _ hpi hpj hlen
  rw [mkDateStr_data, mkDateStr_data] at heq
  exact pad2_data_inj i hi j hj (List.append_cancel_left heq)

theorem mem_calendar_days {trades : List Trade} {notes : List DailyNote}
    {year month : Nat} {c : DayCell}
    (hc : some c ∈ (calendarData trades notes year month).days) :
    ∃ k, k < daysInMonth year month
      ∧ c = mkDayCell trades notes year month (k + 1) := by
  unfold calendarData at hc
  dsimp only at hc
  rcases List.mem_append.mp hc with h | h
  · rcases List.mem_map.mp h with ⟨_, _, habs⟩
    exact absurd habs (by simp)
  · rcases List.mem_map.mp h with ⟨k, hk, heq⟩
    exact ⟨k, List.mem_range.mp hk, (Option.some.inj heq).symm⟩

/-- C2: for any trade and note collections and any target month, every
generated day cell buckets exactly the closed trades whose entry timestamp
has the cell's zero-padded YYYY-MM-DD string as a prefix, its pnl is the sum
of their (absent-as-zero) P&L, hasTrades holds exactly when that bucket is
non-empty, hasNote holds exactly when a note with the cell's date string
exists, and no entry timestamp matches two distinct day cells of the
calendar. -/
theorem c2_calendar_buckets (trades : List Trade) (notes : List DailyNote)
    (year month : Nat) (hm : month < 12) :
    ∀ c : DayCell, some c ∈ (calendarData trades notes year month).days →
      ((∀ t : Trade, t ∈ dayTradesOf trades c.dateStr ↔
          (t ∈ trades ∧ t.status = TradeStatus.CLOSED
            ∧ ∃ u, t.entryDate.data = c.dateStr.data ++ u))
      ∧ c.pnl = ((dayTradesOf trades c.dateStr).map pnlOrZero).sum
      ∧ (c.hasTrades = true ↔ dayTradesOf trades c.dateStr ≠ [])
      ∧ (c.hasNote = true ↔ ∃ n ∈ notes, n.date = c.dateStr)
      ∧ (∀ c' : DayCell,
          some c' ∈ (calendarData trades notes year month).days →
          ∀ s : List Char, c.dateStr.data.isPrefixOf s = true →
            c'.dateStr.data.isPrefixOf s = true → c = c')) := by
  intro c hc
  obtain ⟨k, hk, rfl⟩ := mem_calendar_days hc
  have hds : (mkDayCell trades notes year month (k + 1)).dateStr
      = mkDateStr year month (k + 1) := rfl
  refine ⟨?_, ?_, ?_, ?_, ?_⟩
  · intro t
    rw [hds]
    unfold dayTradesOf
    rw [List.mem_filter, Bool.and_eq_true]
    constructor
    · rintro ⟨ht, hpre, hst⟩
      refine ⟨ht, ?_, ?_⟩
      · have : decide (t.status = TradeStatus.CLOSED) = true := hst
        exact of_decide_eq_true this
      · obtain ⟨u, hu⟩ := (isPrefixOf_exists_append _ _).mp hpre
        exact ⟨u, hu⟩
    · rintro ⟨ht, hst, u, hu⟩
      refine ⟨ht, ?_, ?_⟩
      · exact (isPrefixOf_exists_append _ _).mpr ⟨u, hu⟩
      · exact decide_eq_true hst
  · rw [hds]
    exact sumPnl_eq _
  · rw [hds]
    have : (mkDayCell trades notes year month (k + 1)).hasTrades
        = decide (0 < (dayTradesOf trades
            (mkDateStr year month (k + 1))).length) := rfl
    rw [this, decide_eq_true_eq, List.length_pos]
  · rw [hds]
    have : (mkDayCell trades notes year month (k + 1)).hasNote
        = (notes.find? fun n =>
            n.date == mkDateStr year month (k + 1)).isSome := rfl
    rw [this, List.find?_isSome]
    simp only [beq_iff_eq]
  · intro c' hc' s hp1 hp2
    obtain ⟨k', hk', rfl⟩ := mem_calendar_days hc'
    have hbound := daysInMonth_le_31 year month hm
    have hkey : k + 1 = k' + 1 :=
      @mkDateStr_day_inj year month (k + 1) (k' + 1) (by omega) (by omega)
        s hp1 hp2
    rw [hkey]

/-- Model of `toLocaleString('default', { month: 'short' })` for the 0-based
month index, in the app's default English locale. -/
def monthShortName (m : Nat) : String :=
  match m with
  | 0 => "Jan"
  | 1 => "Feb"
  | 2 => "Mar"
  | 3 => "Apr"
  | 4 => "May"
  | 5 => "Jun"
  | 6 => "Jul"
  | 7 => "Aug"
  | 8 => "Sep"
  | 9 => "Oct"
  | 10 => "Nov"
  | 11 => "Dec"
  | _ => ""

/-- The bucket key `${date.getFullYear()}-${String(date.getMonth() +
1).padStart(2, '0')}` of the monthly aggregation; year and month are read
from the stored ISO timestamp string (local-time parse). -/
def monthKey (s : String) : String :=
  toString (yearOf s) ++ "-" ++ pad2 (monthOf s)

/-- `data[key] = (data[key] || 0) + pnl` on a JS object whose string keys
preserve insertion order: update in place when present, append when absent
(a stored 0 behaves identically under `|| 0`). -/
def bump : List (String × ℚ) → String → ℚ → List (String × ℚ)
  | [], k, v => [(k, v)]
  | (k', v') :: rest, k, v =>
      if k' = k then (k', v' + v) :: rest
      else (k', v') :: bump rest k v

/-- The unsorted month buckets: fold of the closed trades into the record
(`data` object of the `monthlyChartData` memo). -/
def monthlyMapRaw (trades : List Trade) : List (String × ℚ) :=
  (trades.filter fun t => t.status == TradeStatus.CLOSED).foldl
    (fun acc t => bump acc (monthKey t.entryDate) (pnlOrZero t)) []

/-- The comparator `keyA.localeCompare(keyB)` on bucket entries. -/
def keyLE (a b : String × ℚ) : Prop := a.1 ≤ b.1

instance : DecidableRel keyLE := fun a b => by
  unfold keyLE
  infer_instance

instance : IsTotal (String × ℚ) keyLE := ⟨fun a b => le_total a.1 b.1⟩

instance : IsTrans (String × ℚ) keyLE := ⟨fun _ _ _ h1 h2 => le_trans h1 h2⟩

/-- `Object.entries(data).sort(([keyA], [keyB]) => keyA.localeCompare(keyB))`. -/
def monthlyEntries (trades : List Trade) : List (String × ℚ) :=
  List.insertionSort keyLE (monthlyMapRaw trades)

/-- JavaScript `key.split('-')` on the underlying character list. -/
def splitDash : List Char → List (List Char)
  | [] => [[]]
  | c :: rest =>
      if c = '-' then [] :: splitDash rest
      else
        match splitDash rest with
        | [] => [[c]]
        | p :: ps => (c :: p) :: ps

/-- The chart label: re-parse the `YYYY-MM` key and render it as
`toLocaleString('default', { month: 'short', year: '2-digit' })`. -/
def monthLabel (key : String) : String :=
  let parts := splitDash key.data
  let y := natOfDigits (parts.getD 0 [])
  let mo := natOfDigits (parts.getD 1 [])
  monthShortName (mo - 1) ++ " " ++ pad2 (y % 100)

/-- One point of the monthly chart. -/
structure MonthPoint where
  name : String
  pnl : ℚ
deriving DecidableEq, Repr

/-- The monthly aggregation (`monthlyChartData` memo of Dashboard.tsx). -/
def monthlyChartData (trades : List Trade) : List MonthPoint :=
  (monthlyEntries trades).map fun kv => { name := monthLabel kv.1, pnl := kv.2 }

/-- JS property read `data[key]`: value of the first (and, with nodup keys,
only) entry with the given key. -/
def lookupKey : List (String × ℚ) → String → Option ℚ
  | [], _ => none
  | (k', v') :: rest, k => if k' = k then some v' else lookupKey rest k

theorem lookupKey_bump_self (m : List (String × ℚ)) (k : String) (v : ℚ) :
    lookupKey (bump m k v) k = some ((lookupKey m k).getD 0 + v) := by
  induction m with
  | nil => simp [bump, lookupKey]
  | cons hd tl ih =>
      obtain ⟨k0, v0⟩ := hd
      by_cases h : k0 = k
      · subst h
        simp [bump, lookupKey]
      · simp only [bump, if_neg h, lookupKey, ih]

theorem lookupKey_bump_other (m : List (String × ℚ)) (k k' : String) (v : ℚ)
    (h : k' ≠ k) : lookupKey (bump m k v) k' = lookupKey m k' := by
  induction m with
  | nil =>
      simp only [bump, lookupKey]
      rw [if_neg (fun he => h he.symm)]
  | cons hd tl ih =>
      obtain ⟨k0, v0⟩ := hd
      by_cases h0 : k0 = k
      · subst h0
        simp only [bump, if_pos rfl, lookupKey]
        rw [if_neg (fun he => h he.symm), if_neg (fun he => h he.symm)]
      · simp only [bump, if_neg h0, lookupKey, ih]

theorem statusBeq_iff (a b : TradeStatus) : (a == b) = true ↔ a = b :=
  ⟨of_decide_eq_true, decide_eq_true⟩

theorem monthFold_lookup_some (l : List Trade) :
    ∀ (m : List (String × ℚ)) (k : String) (v : ℚ), lookupKey m k = some v →
      lookupKey (l.foldl
          (fun acc t => bump acc (monthKey t.entryDate) (pnlOrZero t)) m) k
        = some (v + ((l.filter fun t =>
            decide (monthKey t.entryDate = k)).map pnlOrZero).sum) := by
  induction l with
  | nil =>
      intro m k v h
      simp [h]
  | cons t ts ih =>
      intro m k v h
      simp only [List.foldl_cons, List.filter_cons]
      by_cases hk : monthKey t.entryDate = k
      · subst hk
        rw [if_pos (by simp)]
        have hb := lookupKey_bump_self m (monthKey t.entryDate) (pnlOrZero t)
        rw [h] at hb
        rw [ih _ _ _ hb]
        simp [add_assoc]
      · rw [if_neg (by simpa using hk)]
        have hb := lookupKey_bump_other m (monthKey t.entryDate) k
          (pnlOrZero t) (fun he => hk he.symm)
        rw [h] at hb
        exact ih _ _ _ hb

theorem monthFold_lookup_none (l : List Trade) :
    ∀ (m : List (String × ℚ)) (k : String), lookupKey m k = none →
      lookupKey (l.foldl
          (fun acc t => bump acc (monthKey t.entryDate) (pnlOrZero t)) m) k
        = if (l.filter fun t => decide (monthKey t.entryDate = k)) = []
          then none
          else some (((l.filter fun t =>
            decide (monthKey t.entryDate = k)).map pnlOrZero).sum) := by
  induction l with
  | nil =>
      intro m k h
      simp [h]
  | cons t ts ih =>
      intro m k h
      simp only [List.foldl_cons]
      by_cases hk : monthKey t.entryDate = k
      · subst hk
        have hb := lookupKey_bump_self m (monthKey t.entryDate) (pnlOrZero t)
        rw [h] at hb
        simp only [Option.getD_none, zero_add] at hb
        rw [monthFold_lookup_some ts _ _ _ hb]
        have hfil : (t :: ts).filter
            (fun u => decide (monthKey u.entryDate = monthKey t.entryDate))
            = t :: ts.filter
              (fun u => decide (monthKey u.entryDate = monthKey t.entryDate)) := by
          rw [List.filter_cons, if_pos (by simp)]
        rw [hfil]
        simp
      · have hfil : (t :: ts).filter
            (fun u => decide (monthKey u.entryDate = k))
            = ts.filter (fun u => decide (monthKey u.entryDate = k)) := by
          rw [List.filter_cons, if_neg (by simpa using hk)]
        rw [hfil]
        have hb := lookupKey_bump_other m (monthKey t.entryDate) k
          (pnlOrZero t) (fun he => hk he.symm)
        rw [h] at hb
        exact ih _ _ hb

/-- The key list of the bucket record. -/
def keysOf (m : List (String × ℚ)) : List String := m.map Prod.fst

theorem mem_keys_bump (m : List (String × ℚ)) (k : String) (v : ℚ)
    (k' : String) : k' ∈ keysOf (bump m k v) ↔ k' ∈ keysOf m ∨ k' = k := by
  induction m with
  | nil => simp [bump, keysOf]
  | cons hd tl ih =>
      obtain ⟨k0, v0⟩ := hd
      by_cases h : k0 = k
      · subst h
        have hb : bump ((k0, v0) :: tl) k0 v = (k0, v0 + v) :: tl := by
          simp [bump]
        rw [hb]
        simp only [keysOf, List.map_cons, List.mem_cons]
        tauto
      · have hb : bump ((k0, v0) :: tl) k v = (k0, v0) :: bump tl k v := by
          simp [bump, h]
        rw [hb]
        simp only [keysOf, List.map_cons, List.mem_cons] at ih ⊢
        rw [ih]
        tauto

theorem nodup_keys_bump (m : List (String × ℚ)) (k : String) (v : ℚ)
    (h : (keysOf m).Nodup) : (keysOf (bump m k v)).Nodup := by
  induction m with
  | nil => simp [bump, keysOf]
  | cons hd tl ih =>
      obtain ⟨k0, v0⟩ := hd
      simp only [keysOf, List.map_cons, List.nodup_cons] at h
      by_cases h0 : k0 = k
      · subst h0
        have hb : bump ((k0, v0) :: tl) k0 v = (k0, v0 + v) :: tl := by
          simp [bump]
        rw [hb]
        simp only [keysOf, List.map_cons, List.nodup_cons]
        exact h
      · have hb : bump ((k0, v0) :: tl) k v = (k0, v0) :: bump tl k v := by
          simp [bump, h0]
        rw [hb]
        simp only [keysOf, List.map_cons, List.nodup_cons]
        refine ⟨?_, ih h.2⟩
        intro habs
        rcases (mem_keys_bump tl k v k0).mp habs with hin | heq
        · exact h.1 hin
        · exact h0 heq

theorem nodup_keys_monthFold (l : List Trade) :
    ∀ m : List (String × ℚ), (keysOf m).Nodup →
      (keysOf (l.foldl
        (fun acc t => bump acc (monthKey t.entryDate) (pnlOrZero t)) m)).Nodup := by
  induction l with
  | nil => intro m h; exact h
  | cons t ts ih =>
      intro m h
      exact ih _ (nodup_keys_bump m _ _ h)

theorem mem_iff_lookupKey :
    ∀ (m : List (String × ℚ)), (keysOf m).Nodup → ∀ (k : String) (v : ℚ),
      (k, v) ∈ m ↔ lookupKey m k = some v := by
  intro m
  induction m with
  | nil => intro _ k v; simp [lookupKey]
  | cons hd tl ih =>
      intro h k v
      obtain ⟨k0, v0⟩ := hd
      simp only [keysOf, List.map_cons, List.nodup_cons] at h
      simp only [List.mem_cons, lookupKey, Prod.mk.injEq]
      by_cases h0 : k0 = k
      · subst h0
        rw [if_pos rfl]
        constructor
        · rintro (⟨_, rfl⟩ | hmem)
          · rfl
          · exact absurd (List.mem_map.mpr ⟨_, hmem, rfl⟩) h.1
        · intro hv
          exact Or.inl ⟨rfl, (Option.some.inj hv).symm⟩
      · rw [if_neg h0]
        rw [ih h.2 k v]
        constructor
        · rintro (⟨he, _⟩ | hmem)
          · exact absurd he.symm h0
          · exact hmem
        · exact Or.inr

theorem nodup_keys_monthlyMapRaw (trades : List Trade) :
    (keysOf (monthlyMapRaw trades)).Nodup := by
  unfold monthlyMapRaw
  exact nodup_keys_monthFold _ [] (by simp [keysOf])

/-- Scenario-E trade: closed, dated 2024-01-05, P&L 100. -/
def tradeE1 : Trade :=
  { tradeB1 with id := "e1", entryDate := "2024-01-05", pnl := some 100 }

/-- Scenario-E trade: closed, dated 2024-01-20, P&L −40. -/
def tradeE2 : Trade :=
  { tradeB1 with id := "e2", entryDate := "2024-01-20", pnl := some (-40) }

/-- C6: closed trades are bucketed by the zero-padded YYYY-MM key of their
entry timestamp with P&L summed per bucket, the emitted buckets are strictly
sorted ascending by the key (string-lexicographic order), the chart points
carry the short month/2-digit-year label, and scenario E (closed trades
dated 2024-01-05 with P&L 100 and 2024-01-20 with P&L −40) yields the single
bucket "Jan 24" with P&L 60. -/
theorem c6_monthly_aggregation (trades : List Trade) :
    List.Pairwise (fun a b : String × ℚ => a.1 < b.1) (monthlyEntries trades)
    ∧ (∀ (k : String) (v : ℚ), (k, v) ∈ monthlyEntries trades ↔
        ((∃ t ∈ trades,
            t.status = TradeStatus.CLOSED ∧ monthKey t.entryDate = k)
          ∧ v = (((trades.filter fun t =>
              t.status == TradeStatus.CLOSED).filter fun t =>
                decide (monthKey t.entryDate = k)).map pnlOrZero).sum))
    ∧ monthlyChartData trades
        = (monthlyEntries trades).map
            (fun kv => { name := monthLabel kv.1, pnl := kv.2 })
    ∧ monthlyChartData [tradeE1, tradeE2]
        = [{ name := "Jan 24", pnl := 60 }] := by
  have hperm : (monthlyEntries trades).Perm (monthlyMapRaw trades) :=
    List.perm_insertionSort keyLE _
  have hnraw := nodup_keys_monthlyMapRaw trades
  refine ⟨?_, ?_, rfl, ?_⟩
  · have hsorted : List.Pairwise keyLE (monthlyEntries trades) :=
      List.sorted_insertionSort keyLE _
    have hnd : (keysOf (monthlyEntries trades)).Nodup := by
      unfold keysOf at *
      exact (List.Perm.nodup_iff (hperm.map Prod.fst)).mpr hnraw
    have hpw : List.Pairwise (fun a b : String × ℚ => a.1 ≠ b.1)
        (monthlyEntries trades) := List.pairwise_map.mp hnd
    exact (hsorted.and hpw).imp (fun hab => lt_of_le_of_ne hab.1 hab.2)
  · intro k v
    rw [hperm.mem_iff, mem_iff_lookupKey _ hnraw k v]
    unfold monthlyMapRaw
    rw [monthFold_lookup_none _ [] k rfl]
    have hmemf : ∀ t : Trade,
        t ∈ ((trades.filter fun t => t.status == TradeStatus.CLOSED).filter
          fun t => decide (monthKey t.entryDate = k))
        ↔ t ∈ trades ∧ t.status = TradeStatus.CLOSED
            ∧ monthKey t.entryDate = k := by
      intro t
      simp only [List.mem_filter, decide_eq_true_eq, statusBeq_iff,
        and_assoc]
    by_cases hfe : ((trades.filter fun t =>
        t.status == TradeStatus.CLOSED).filter fun t =>
          decide (monthKey t.entryDate = k)) = []
    · rw [if_pos hfe]
      constructor
      · intro habs
        exact absurd habs (by simp)
      · rintro ⟨⟨t, ht, hst, hkt⟩, _⟩
        have hmem : t ∈ ((trades.filter fun t =>
            t.status == TradeStatus.CLOSED).filter fun t =>
              decide (monthKey t.entryDate = k)) :=
          (hmemf t).mpr ⟨ht, hst, hkt⟩
        rw [hfe] at hmem
        exact absurd hmem (List.not_mem_nil t)
    · rw [if_neg hfe]
      constructor
      · intro hv
        refine ⟨?_, (Option.some.inj hv).symm⟩
        obtain ⟨t, ht⟩ := List.exists_mem_of_ne_nil _ hfe
        obtain ⟨ht1, ht2, ht3⟩ := (hmemf t).mp ht
        exact ⟨t, ht1, ht2, ht3⟩
      · rintro ⟨_, rfl⟩
        rfl
  · show monthlyChartData [tradeE1, tradeE2] = _
    have hkey : monthKey tradeE2.entryDate = monthKey tradeE1.entryDate := by
      decide
    unfold monthlyChartData monthlyEntries monthlyMapRaw
    simp only [List.filter_cons, List.filter_nil]
    rw [if_pos (by decide), if_pos (by decide)]
    simp only [List.foldl_cons, List.foldl_nil]
    rw [show bump [] (monthKey tradeE1.entryDate) (pnlOrZero tradeE1)
        = [(monthKey tradeE1.entryDate, pnlOrZero tradeE1)] from rfl]
    rw [show bump [(monthKey tradeE1.entryDate, pnlOrZero tradeE1)]
          (monthKey tradeE2.entryDate) (pnlOrZero tradeE2)
        = [(monthKey tradeE1.entryDate,
            pnlOrZero tradeE1 + pnlOrZero tradeE2)] by
      simp [bump, hkey]]
    simp only [List.insertionSort, List.orderedInsert, List.map_cons,
      List.map_nil]
    rw [List.cons.injEq]
    refine ⟨?_, rfl⟩
    rw [MonthPoint.mk.injEq]
    constructor
    · decide
    · show pnlOrZero tradeE1 + pnlOrZero tradeE2 = 60
      norm_num [pnlOrZero, tradeE1, tradeE2, tradeB1]

/-- A concrete daily note for 2024-01-05. -/
def noteJan5 : DailyNote :=
  { date := "2024-01-05", content := "calm session", mood := some "Neutral" }

/-- C2 witness: the month bound and the cell-membership hypothesis
discharged for the 5th of January 2024. -/
theorem c2_calendar_buckets_witness :
    (0:Nat) < 12
    ∧ some (mkDayCell [] [noteJan5] 2024 0 5)
        ∈ (calendarData [] [noteJan5] 2024 0).days
    ∧ ((mkDayCell [] [noteJan5] 2024 0 5).hasNote = true
        ↔ ∃ n ∈ [noteJan5],
            n.date = (mkDayCell [] [noteJan5] 2024 0 5).dateStr) := by
  have hmem : some (mkDayCell [] [noteJan5] 2024 0 5)
      ∈ (calendarData [] [noteJan5] 2024 0).days := by
    refine List.mem_append_right _ ?_
    exact List.mem_map.mpr ⟨4, List.mem_range.mpr (by decide), rfl⟩
  exact ⟨by decide, hmem,
    (c2_calendar_buckets [] [noteJan5] 2024 0 (by decide) _ hmem).2.2.2.1⟩

/-- Model of `toLocaleDateString(undefined, { month: 'short', day: 'numeric' })`
on the stored timestamp, e.g. "Jan 5". -/
def shortDate (s : String) : String :=
  monthShortName (monthOf s - 1) ++ " " ++ toString (dayOf s)

/-- One point of the equity curve (`{ date, equity, pnl }`). -/
structure EquityPoint where
  date : String
  equity : ℚ
  pnl : Option ℚ
deriving DecidableEq, Repr

/-- The equity-curve comparator: ascending entry timestamp, no tie break
(the stable sort keeps the original order of ties). -/
def equityLE (a b : Trade) : Prop :=
  entryTime a.entryDate ≤ entryTime b.entryDate

instance : DecidableRel equityLE := fun a b => by
  unfold equityLE
  infer_instance

/-- `[...trades].filter(closed).sort(by date)` of the `equityCurveData` memo. -/
def equitySorted (trades : List Trade) : List Trade :=
  List.insertionSort equityLE
    (trades.filter fun t => t.status == TradeStatus.CLOSED)

/-- The running-balance map of the `equityCurveData` memo: each trade emits a
point whose equity is the balance after adding its `pnl || 0`. -/
def equityPointsFrom (bal : ℚ) : List Trade → List EquityPoint
  | [] => []
  | t :: ts =>
      { date := shortDate t.entryDate, equity := bal + pnlOrZero t,
        pnl := t.pnl } :: equityPointsFrom (bal + pnlOrZero t) ts

/-- The equity projector (`equityCurveData` memo of Dashboard.tsx). -/
def equityCurveData (trades : List Trade) : List EquityPoint :=
  equityPointsFrom 0 (equitySorted trades)

/-- Placeholder trade used only as the `getD` default. -/
def defaultTrade : Trade :=
  { id := "", symbol := "", type := TradeType.LONG,
    status := TradeStatus.OPEN, entryDate := "", expiryDate := none,
    entryPrice := 0, exitPrice := none, quantity := 0, stopLoss := none,
    takeProfit := none, pnl := none, setup := "", notes := "", tags := [] }

/-- Placeholder point used only as the `getD` default. -/
def defaultPoint : EquityPoint := { date := "", equity := 0, pnl := none }

theorem equityPointsFrom_length :
    ∀ (l : List Trade) (bal : ℚ),
      (equityPointsFrom bal l).length = l.length := by
  intro l
  induction l with
  | nil => intro bal; rfl
  | cons t ts ih =>
      intro bal
      simp only [equityPointsFrom, List.length_cons, ih]

theorem equityPointsFrom_flat :
    ∀ (l : List Trade) (bal : ℚ) (i : Nat), i < l.length →
      (l.getD i defaultTrade).pnl = none →
      ((equityPointsFrom bal l).getD i defaultPoint).equity
        = if i = 0 then bal
          else ((equityPointsFrom bal l).getD (i - 1) defaultPoint).equity := by
  intro l
  induction l with
  | nil =>
      intro bal i hi
      exact absurd hi (by simp)
  | cons t ts ih =>
      intro bal i hi hp
      cases i with
      | zero =>
          have hzero : pnlOrZero t = 0 := by
            simp only [List.getD_cons_zero] at hp
            simp [pnlOrZero, hp]
          simp [equityPointsFrom, List.getD_cons_zero, hzero]
      | succ j =>
          simp only [List.getD_cons_succ] at hp
          have hj : j < ts.length := by
            simpa using Nat.lt_of_succ_lt_succ hi
          have hrec := ih (bal + pnlOrZero t) j hj hp
          simp only [equityPointsFrom, List.getD_cons_succ]
          by_cases hj0 : j = 0
          · subst hj0
            rw [if_neg (by omega)]
            simp only [Nat.add_sub_cancel, List.getD_cons_zero]
            rw [hrec, if_pos rfl]
          · rw [hrec, if_neg hj0, if_neg (by omega)]
            have hj1 : j - 1 + 1 = j := by omega
            rw [show Nat.succ j - 1 = j from rfl]
            cases j with
            | zero => exact absurd rfl hj0
            | succ m =>
                simp [List.getD_cons_succ]

/-- C9: a closed trade with absent realized P&L is dropped from the
statistics engine's subset (inserting it anywhere changes no DerivedStats
field), yet it is kept by the equity projector — where any such trade's
point leaves the running balance unchanged — by the monthly aggregation —
where its bucket's value is exactly the sum over the other closed trades of
its month — and by the calendar aggregator, where it forces hasTrades on
every cell whose day string prefixes its entry timestamp. -/
theorem c9_closed_absent_pnl (l1 l2 : List Trade) (t : Trade)
    (hst : t.status = TradeStatus.CLOSED) (hp : t.pnl = none) :
    stats (l1 ++ t :: l2) = stats (l1 ++ l2)
    ∧ t ∈ equitySorted (l1 ++ t :: l2)
    ∧ (equityCurveData (l1 ++ t :: l2)).length
        = (equitySorted (l1 ++ t :: l2)).length
    ∧ (∀ i, i < (equitySorted (l1 ++ t :: l2)).length →
        ((equitySorted (l1 ++ t :: l2)).getD i defaultTrade).pnl = none →
        ((equityCurveData (l1 ++ t :: l2)).getD i defaultPoint).equity
          = if i = 0 then 0
            else ((equityCurveData (l1 ++ t :: l2)).getD (i - 1)
              defaultPoint).equity)
    ∧ lookupKey (monthlyMapRaw (l1 ++ t :: l2)) (monthKey t.entryDate)
        = some (((((l1 ++ l2).filter fun u =>
            u.status == TradeStatus.CLOSED).filter fun u =>
              decide (monthKey u.entryDate = monthKey t.entryDate)).map
                pnlOrZero).sum)
    ∧ (∀ (notes : List DailyNote) (year month : Nat) (c : DayCell),
        some c ∈ (calendarData (l1 ++ t :: l2) notes year month).days →
        c.dateStr.data.isPrefixOf t.entryDate.data = true →
        c.hasTrades = true) := by
  have hzero : pnlOrZero t = 0 := by simp [pnlOrZero, hp]
  have hbeq : (t.status == TradeStatus.CLOSED) = true :=
    (statusBeq_iff _ _).mpr hst
  refine ⟨?_, ?_, ?_, ?_, ?_, ?_⟩
  · have hfilter : ((l1 ++ t :: l2).filter fun u =>
        u.status == TradeStatus.CLOSED && u.pnl.isSome)
        = ((l1 ++ l2).filter fun u =>
          u.status == TradeStatus.CLOSED && u.pnl.isSome) := by
      simp [List.filter_append, List.filter_cons, hp]
    unfold stats closedTrades
    rw [hfilter]
  · have hmem : t ∈ (l1 ++ t :: l2).filter fun u =>
        u.status == TradeStatus.CLOSED := by
      rw [List.mem_filter]
      exact ⟨List.mem_append_right _ (List.mem_cons_self t l2), hbeq⟩
    exact (List.perm_insertionSort equityLE _).mem_iff.mpr hmem
  · exact equityPointsFrom_length _ 0
  · intro i hi hpi
    exact equityPointsFrom_flat _ 0 i hi hpi
  · unfold monthlyMapRaw
    rw [monthFold_lookup_none _ [] _ rfl]
    have hstep : ((l1 ++ t :: l2).filter fun u =>
        u.status == TradeStatus.CLOSED)
        = (l1.filter fun u => u.status == TradeStatus.CLOSED)
          ++ t :: (l2.filter fun u => u.status == TradeStatus.CLOSED) := by
      simp [List.filter_append, List.filter_cons, hbeq]
    rw [hstep]
    have hstep2 : (((l1.filter fun u => u.status == TradeStatus.CLOSED)
          ++ t :: (l2.filter fun u => u.status == TradeStatus.CLOSED)).filter
          fun u => decide (monthKey u.entryDate = monthKey t.entryDate))
        = ((l1.filter fun u => u.status == TradeStatus.CLOSED).filter
            fun u => decide (monthKey u.entryDate = monthKey t.entryDate))
          ++ t :: ((l2.filter fun u => u.status == TradeStatus.CLOSED).filter
            fun u => decide (monthKey u.entryDate = monthKey t.entryDate)) := by
      simp [List.filter_append, List.filter_cons]
    rw [hstep2]
    rw [if_neg (by simp)]
    have hsum : ((((l1.filter fun u => u.status == TradeStatus.CLOSED).filter
          fun u => decide (monthKey u.entryDate = monthKey t.entryDate))
          ++ t :: ((l2.filter fun u => u.status == TradeStatus.CLOSED).filter
            fun u => decide (monthKey u.entryDate = monthKey t.entryDate))).map
              pnlOrZero).sum
        = (((l1 ++ l2).filter (fun u => u.status == TradeStatus.CLOSED)
            |>.filter fun u =>
              decide (monthKey u.entryDate = monthKey t.entryDate)).map
                pnlOrZero).sum := by
      simp [List.filter_append, List.map_append, List.sum_append, hzero]
    rw [hsum]
  · intro notes year month c hc hpre
    obtain ⟨k, hk, rfl⟩ := mem_calendar_days hc
    have hmem : t ∈ dayTradesOf (l1 ++ t :: l2)
        (mkDateStr year month (k + 1)) := by
      rw [dayTradesOf, List.mem_filter]
      refine ⟨List.mem_append_right _ (List.mem_cons_self t l2), ?_⟩
      rw [Bool.and_eq_true]
      exact ⟨hpre, hbeq⟩
    have hlen : 0 < (dayTradesOf (l1 ++ t :: l2)
        (mkDateStr year month (k + 1))).length :=
      List.length_pos.mpr (List.ne_nil_of_mem hmem)
    exact decide_eq_true hlen

/-- A closed trade with absent P&L used in the C9 witness. -/
def tradeC9 : Trade :=
  { tradeB1 with id := "c9", entryDate := "2024-02-10T09:30", pnl := none }

/-- C9 witness: the status and absent-P&L hypotheses discharged on a
concrete trade. -/
theorem c9_closed_absent_pnl_witness :
    tradeC9.status = TradeStatus.CLOSED ∧ tradeC9.pnl = none
    ∧ stats ([] ++ tradeC9 :: [tradeE1]) = stats ([] ++ [tradeE1]) :=
  ⟨rfl, rfl, (c9_closed_absent_pnl [] [tradeE1] tradeC9 rfl rfl).1⟩

/-- Outcome of one underlying generative-model call: a response whose `text`
may be present, empty or absent, or any exception thrown inside the try
block (client construction, network, API error). -/
inductive ModelOutcome where
  | ok (text : Option String)
  | failure
deriving DecidableEq, Repr

/-- The prompt template of `analyzeTradeWithAI`, with the trade fields
interpolated (`exitPrice || 'N/A'` and `pnl || 'N/A'` treat an absent or
zero value as "N/A"); whitespace is flattened and numbers are rendered by
`toString`. -/
def promptFor (trade : Trade) : String :=
  "You are an expert trading psychology coach and technical analyst for the "
  ++ "**Indian Stock Market (NSE/BSE)**. Analyze the following trade entry "
  ++ "and provide constructive feedback in 3 bullet points. Context: The "
  ++ "trader trades Options (F&O) and Equity. Focus on risk management, "
  ++ "psychology, and Indian market context (Nifty/BankNifty levels, Expiry "
  ++ "dynamics) based on the notes. Trade Details: Symbol: " ++ trade.symbol
  ++ " Type: "
  ++ (match trade.type with
      | TradeType.LONG => "LONG"
      | TradeType.SHORT => "SHORT")
  ++ " Entry: " ++ toString trade.entryPrice
  ++ " Exit: "
  ++ (match trade.exitPrice with
      | some v => if v = 0 then "N/A" else toString v
      | none => "N/A")
  ++ " P&L: "
  ++ (match trade.pnl with
      | some v => if v = 0 then "N/A" else toString v
      | none => "N/A")
  ++ " Strategy: " ++ trade.setup
  ++ " Trader\x27s Notes: \"" ++ trade.notes ++ "\" Output format: "
  ++ "1. [Technical Observation] (Mention key levels if symbol is "
  ++ "NIFTY/BANKNIFTY) 2. [Psychological/Risk Insight] 3. [Actionable "
  ++ "Advice for next trade] Keep it concise and professional."

/-- The AI-coach adapter: `response.text || "Could not generate analysis."`
on success, and the fixed apology string when anything in the try block
throws; the external call is the `model` parameter. -/
def analyzeTradeWithAI (model : String → ModelOutcome) (trade : Trade) :
    String :=
  match model (promptFor trade) with
  | ModelOutcome.ok text =>
      match text with
      | some s => if s = "" then "Could not generate analysis." else s
      | none => "Could not generate analysis."
  | ModelOutcome.failure =>
      "Error connecting to AI Coach. Please check your API key or try again later."

/-- C8: for every behavior of the underlying model call, the adapter returns
a non-empty string — the model's own text when it is non-empty, a fixed
message when the text is empty or absent, and the fixed apology string on
failure — and, being a total function into String, never throws past its
boundary. -/
theorem c8_ai_coach_always_string (model : String → ModelOutcome)
    (trade : Trade) :
    analyzeTradeWithAI model trade ≠ ""
    ∧ (model (promptFor trade) = ModelOutcome.failure →
        analyzeTradeWithAI model trade
          = "Error connecting to AI Coach. Please check your API key or try again later.")
    ∧ (∀ s : String, model (promptFor trade) = ModelOutcome.ok (some s) →
        s ≠ "" → analyzeTradeWithAI model trade = s)
    ∧ (analyzeTradeWithAI model trade = "Could not generate analysis."
      ∨ analyzeTradeWithAI model trade
          = "Error connecting to AI Coach. Please check your API key or try again later."
      ∨ ∃ s : String, s ≠ ""
          ∧ model (promptFor trade) = ModelOutcome.ok (some s)
          ∧ analyzeTradeWithAI model trade = s) := by
  cases hm : model (promptFor trade) with
  | ok text =>
      cases text with
      | none =>
          have hr : analyzeTradeWithAI model trade
              = "Could not generate analysis." := by
            unfold analyzeTradeWithAI
            rw [hm]
          refine ⟨by rw [hr]; decide, ?_, ?_, Or.inl hr⟩
          · intro hfail
            exact absurd hfail (by simp)
          · intro s hok
            exact absurd hok (by simp)
      | some s =>
          by_cases hs : s = ""
          · subst hs
            have hr : analyzeTradeWithAI model trade
                = "Could not generate analysis." := by
              unfold analyzeTradeWithAI
              rw [hm]
              rfl
            refine ⟨by rw [hr]; decide, ?_, ?_, Or.inl hr⟩
            · intro hfail
              exact absurd hfail (by simp)
            · intro s' hok hne
              simp only [ModelOutcome.ok.injEq, Option.some.injEq] at hok
              exact absurd hok.symm hne
          · have hr : analyzeTradeWithAI model trade = s := by
              unfold analyzeTradeWithAI
              rw [hm]
              exact if_neg hs
            refine ⟨by rw [hr]; exact hs, ?_, ?_,
              Or.inr (Or.inr ⟨s, hs, rfl, hr⟩)⟩
            · intro hfail
              exact absurd hfail (by simp)
            · intro s' hok _
              simp only [ModelOutcome.ok.injEq, Option.some.injEq] at hok
              rw [hr, hok]
  | failure =>
      have hr : analyzeTradeWithAI model trade
          = "Error connecting to AI Coach. Please check your API key or try again later." := by
        unfold analyzeTradeWithAI
        rw [hm]
      refine ⟨by rw [hr]; decide, fun _ => hr, ?_, Or.inr (Or.inl hr)⟩
      intro s hok
      exact absurd hok (by simp)

/-- C8 witness: the failure hypothesis discharged on the always-failing
model. -/
theorem c8_ai_coach_always_string_witness :
    (fun _ : String => ModelOutcome.failure) (promptFor tradeA)
        = ModelOutcome.failure
    ∧ analyzeTradeWithAI (fun _ => ModelOutcome.failure) tradeA
        = "Error connecting to AI Coach. Please check your API key or try again later." :=
  ⟨rfl, (c8_ai_coach_always_string (fun _ => ModelOutcome.failure)
    tradeA).2.1 rfl⟩

/-- One row of the `trades` table as delivered by the store (nullable
columns are options; `type`/`status` hold the enum strings, which the code
casts without conversion). -/
structure TradeRow where
  id : String
  user_id : String
  symbol : String
  type : TradeType
  status : TradeStatus
  entry_date : String
  expiry_date : Option String
  entry_price : Option ℚ
  exit_price : Option ℚ
  quantity : Option ℚ
  stop_loss : Option ℚ
  take_profit : Option ℚ
  pnl : Option ℚ
  setup : Option String
  notes : Option String
  tags : Option (List String)
  created_at : String
deriving DecidableEq, Repr

/-- JavaScript `Number(x)` on a nullable numeric column: `Number(null)` is 0. -/
def jsNumber (v : Option ℚ) : ℚ := v.getD 0

/-- JavaScript `x ? Number(x) : undefined` on a nullable numeric column:
null and 0 are both falsy and map to undefined. -/
def truthyNum (v : Option ℚ) : Option ℚ :=
  match v with
  | none => none
  | some x => if x = 0 then none else some x

/-- The row-to-Trade mapping of the first `fetchTrades` copy; its pnl rule
`t.pnl !== null ? Number(t.pnl) : undefined` is the identity on the
optional column. -/
def fetchTradesMapA (r : TradeRow) : Trade :=
  { id := r.id, symbol := r.symbol, type := r.type, status := r.status,
    entryDate := r.entry_date, expiryDate := r.expiry_date,
    entryPrice := jsNumber r.entry_price,
    exitPrice := truthyNum r.exit_price,
    quantity := jsNumber r.quantity,
    stopLoss := truthyNum r.stop_loss,
    takeProfit := truthyNum r.take_profit,
    pnl := r.pnl,
    setup := r.setup.getD "", notes := r.notes.getD "",
    tags := r.tags.getD [] }

/-- The row-to-Trade mapping of the second `fetchTrades` copy; its pnl rule
is the truthiness test `t.pnl ? Number(t.pnl) : undefined`. -/
def fetchTradesMapB (r : TradeRow) : Trade :=
  { id := r.id, symbol := r.symbol, type := r.type, status := r.status,
    entryDate := r.entry_date, expiryDate := r.expiry_date,
    entryPrice := jsNumber r.entry_price,
    exitPrice := truthyNum r.exit_price,
    quantity := jsNumber r.quantity,
    stopLoss := truthyNum r.stop_loss,
    takeProfit := truthyNum r.take_profit,
    pnl := truthyNum r.pnl,
    setup := r.setup.getD "", notes := r.notes.getD "",
    tags := r.tags.getD [] }

/-- A stored row whose pnl column is exactly 0. -/
def rowZeroPnl : TradeRow :=
  { id := "r1", user_id := "u1", symbol := "NIFTY",
    type := TradeType.LONG, status := TradeStatus.CLOSED,
    entry_date := "2024-01-05T10:00", expiry_date := none,
    entry_price := some 100, exit_price := some 100, quantity := some 10,
    stop_loss := none, take_profit := none, pnl := some 0,
    setup := some "Scalp", notes := some "flat", tags := some [],
    created_at := "2024-01-05T10:05" }

/-- C10 counterexample: on a row with stored pnl 0 the first copy keeps the
value (a defined pnl of 0) while the second maps it to undefined, so the two
embedded mappings are not equal on every row. -/
theorem c10_counterexample_pnl_zero :
    rowZeroPnl.pnl = some 0
    ∧ (fetchTradesMapA rowZeroPnl).pnl = some 0
    ∧ (fetchTradesMapB rowZeroPnl).pnl = none
    ∧ fetchTradesMapA rowZeroPnl ≠ fetchTradesMapB rowZeroPnl := by
  have hB : (fetchTradesMapB rowZeroPnl).pnl = none := by
    show truthyNum (some 0) = none
    simp [truthyNum]
  refine ⟨rfl, rfl, hB, ?_⟩
  intro h
  have := congrArg Trade.pnl h
  rw [hB] at this
  exact Option.noConfusion (show some (0:ℚ) = none from this)

/-- C10 (amended): the two mappings agree on every row whose stored pnl is
not exactly 0; the original claim of agreement on every row fails only at a
stored pnl of 0. -/
theorem c10_amended_row_agreement (r : TradeRow) (h : r.pnl ≠ some 0) :
    fetchTradesMapA r = fetchTradesMapB r := by
  have hpnl : truthyNum r.pnl = r.pnl := by
    cases hp : r.pnl with
    | none => rfl
    | some x =>
        have hx : x ≠ 0 := fun hx0 => h (by rw [hp, hx0])
        simp [truthyNum, hx]
  unfold fetchTradesMapA fetchTradesMapB
  rw [hpnl]

/-- A stored row whose pnl column is 5. -/
def rowFivePnl : TradeRow := { rowZeroPnl with id := "r2", pnl := some 5 }

/-- C10 witness: the non-zero-pnl hypothesis discharged on a concrete row. -/
theorem c10_amended_row_agreement_witness :
    rowFivePnl.pnl ≠ some 0
    ∧ fetchTradesMapA rowFivePnl = fetchTradesMapB rowFivePnl := by
  have h : rowFivePnl.pnl ≠ some 0 := by
    intro habs
    have : (5:ℚ) = 0 := Option.some.inj habs
    norm_num at this
  exact ⟨h, c10_amended_row_agreement rowFivePnl h⟩

/-- C6 witness: the bucket-membership characterization instantiated on the
scenario-E trades, with both sides of the equivalence exhibited
concretely. -/
theorem c6_monthly_aggregation_witness :
    ((∃ t ∈ [tradeE1, tradeE2],
        t.status = TradeStatus.CLOSED ∧ monthKey t.entryDate = "2024-01")
      ∧ (60:ℚ) = ((([tradeE1, tradeE2].filter fun t =>
          t.status == TradeStatus.CLOSED).filter fun t =>
            decide (monthKey t.entryDate = "2024-01")).map pnlOrZero).sum)
    ∧ ("2024-01", (60:ℚ)) ∈ monthlyEntries [tradeE1, tradeE2] := by
  have h1 : ∃ t ∈ [tradeE1, tradeE2],
      t.status = TradeStatus.CLOSED ∧ monthKey t.entryDate = "2024-01" :=
    ⟨tradeE1, by simp, rfl, by decide⟩
  have h2 : (60:ℚ) = ((([tradeE1, tradeE2].filter fun t =>
      t.status == TradeStatus.CLOSED).filter fun t =>
        decide (monthKey t.entryDate = "2024-01")).map pnlOrZero).sum := by
    rw [show ([tradeE1, tradeE2].filter fun t =>
        t.status == TradeStatus.CLOSED) = [tradeE1, tradeE2] from rfl]
    rw [show ([tradeE1, tradeE2].filter fun t =>
        decide (monthKey t.entryDate = "2024-01")) = [tradeE1, tradeE2]
      from by
        rw [List.filter_cons, List.filter_cons, List.filter_nil,
          if_pos (by decide), if_pos (by decide)]]
    show (60:ℚ) = pnlOrZero tradeE1 + (pnlOrZero tradeE2 + 0)
    norm_num [pnlOrZero, tradeE1, tradeE2, tradeB1]
  exact ⟨⟨h1, h2⟩,
    ((c6_monthly_aggregation [tradeE1, tradeE2]).2.1 "2024-01" 60).mpr
      ⟨h1, h2⟩⟩
